import Mathlib

/-!
Verification of the `data-mock-builder` field-resolution and build-execution
pipeline (source: `src/builder.ts`, class `MockBuilder`).

The embedding models JavaScript runtime values shallowly: every array, plain
object and opaque object (Date, RegExp, Function, Map, Set, WeakMap, WeakSet,
Error, Promise) carries a reference identifier (`ref`), so that the aliasing
behaviour of the deep-clone engine is expressible.  Fresh references are drawn
from an explicit allocation cursor threaded through `deepClone` and `build`.
Primitive values carry no reference (they are compared by value in JS).
-/

set_option autoImplicit false

namespace DataMockBuilder

/-- Primitive (atomic, value-compared) JavaScript values. -/
inductive Prim where
  | null
  | undef
  | num (n : Int)
  | str (s : String)
  | bool (b : Bool)
  | sym (id : Nat)
  | bigint (n : Int)
deriving DecidableEq, Repr

/-- Object kinds that `deepClone` in `build()` treats as atomic: it returns
them by reference instead of copying (`Date`, `RegExp`, `Function`, `Map`,
`Set`, `WeakMap`, `WeakSet`, `Error`, `Promise`). -/
inductive AtomicKind where
  | date
  | regexp
  | func
  | map
  | set
  | weakMap
  | weakSet
  | error
  | promise
deriving DecidableEq, Repr

mutual
/-- A JavaScript runtime value.  `arr` and `obj` are the containers the clone
engine copies structurally; `atomic` covers the opaque object kinds returned
by reference; `prim` covers primitives.  Container and atomic nodes carry a
reference identifier so aliasing is observable in the model. -/
inductive JsValue where
  | prim (p : Prim)
  | atomic (k : AtomicKind) (ref : Nat)
  | arr (ref : Nat) (elems : JsValueList)
  | obj (ref : Nat) (fields : JsFieldList)

/-- Elements of a JavaScript array (spine-explicit list, mutually inductive
with `JsValue` so that structural recursion over values is available). -/
inductive JsValueList where
  | nil
  | cons (v : JsValue) (vs : JsValueList)

/-- Own enumerable properties of a plain JavaScript object, in insertion
order (the order `for ... in` visits them). -/
inductive JsFieldList where
  | nil
  | cons (key : String) (v : JsValue) (vs : JsFieldList)
end

mutual
/-- Embedding of the `deepClone` helper declared inside `build()`:
arrays are mapped element-wise, plain objects are rebuilt key by key, and
everything else (primitives and the opaque kinds) is returned unchanged.
The `Nat` argument is the allocation cursor; a cloned container receives the
cursor's current value as its fresh reference. -/
def deepClone : JsValue → Nat → JsValue × Nat
  | .prim p, c => (.prim p, c)
  | .atomic k r, c => (.atomic k r, c)
  | .arr _ es, c =>
    let r := deepCloneList es (c + 1)
    (.arr c r.1, r.2)
  | .obj _ fs, c =>
    let r := deepCloneFields fs (c + 1)
    (.obj c r.1, r.2)

/-- Clone every element of an array, left to right (the `value.map(deepClone)`
branch of `deepClone`). -/
def deepCloneList : JsValueList → Nat → JsValueList × Nat
  | .nil, c => (.nil, c)
  | .cons v vs, c =>
    let r := deepClone v c
    let r2 := deepCloneList vs r.2
    (.cons r.1 r2.1, r2.2)

/-- Clone every own-property value of a plain object, preserving keys and
their order (the `for (const key in value)` branch of `deepClone`). -/
def deepCloneFields : JsFieldList → Nat → JsFieldList × Nat
  | .nil, c => (.nil, c)
  | .cons k v vs, c =>
    let r := deepClone v c
    let r2 := deepCloneFields vs r.2
    (.cons k r.1 r2.1, r2.2)
end

mutual
/-- Erase all reference identifiers (containers and atomics alike), leaving
the pure structure.  Two values equal after `eraseRef` are what JavaScript
deep-equality (`toEqual`) would consider equal. -/
def eraseRef : JsValue → JsValue
  | .prim p => .prim p
  | .atomic k _ => .atomic k 0
  | .arr _ es => .arr 0 (eraseRefList es)
  | .obj _ fs => .obj 0 (eraseRefFields fs)

/-- Erase references in every element of an array spine. -/
def eraseRefList : JsValueList → JsValueList
  | .nil => .nil
  | .cons v vs => .cons (eraseRef v) (eraseRefList vs)

/-- Erase references in every property of an object spine. -/
def eraseRefFields : JsFieldList → JsFieldList
  | .nil => .nil
  | .cons k v vs => .cons k (eraseRef v) (eraseRefFields vs)
end

mutual
/-- Holds when every container node (`arr` or `obj`) in the value has a
reference at least `n`.  Atomic and primitive leaves are exempt: `deepClone`
deliberately returns those by their original reference. -/
def containersGE (n : Nat) : JsValue → Prop
  | .prim _ => True
  | .atomic _ _ => True
  | .arr r es => n ≤ r ∧ containersGEList n es
  | .obj r fs => n ≤ r ∧ containersGEFields n fs

/-- Container-reference lower bound over an array spine. -/
def containersGEList (n : Nat) : JsValueList → Prop
  | .nil => True
  | .cons v vs => containersGE n v ∧ containersGEList n vs

/-- Container-reference lower bound over an object spine. -/
def containersGEFields (n : Nat) : JsFieldList → Prop
  | .nil => True
  | .cons _ v vs => containersGE n v ∧ containersGEFields n vs
end

/-- Reference identifier of a value's root node, when it has one. -/
def JsValue.rootRef : JsValue → Option Nat
  | .prim _ => none
  | .atomic _ r => some r
  | .arr r _ => some r
  | .obj r _ => some r

mutual
theorem eraseRef_deepClone : ∀ (v : JsValue) (c : Nat),
    eraseRef (deepClone v c).1 = eraseRef v
  | .prim _, _ => rfl
  | .atomic _ _, _ => rfl
  | .arr _ es, c => by
    simp only [deepClone, eraseRef]
    exact congrArg (JsValue.arr 0) (eraseRefList_deepCloneList es (c + 1))
  | .obj _ fs, c => by
    simp only [deepClone, eraseRef]
    exact congrArg (JsValue.obj 0) (eraseRefFields_deepCloneFields fs (c + 1))

theorem eraseRefList_deepCloneList : ∀ (es : JsValueList) (c : Nat),
    eraseRefList (deepCloneList es c).1 = eraseRefList es
  | .nil, _ => rfl
  | .cons v vs, c => by
    simp only [deepCloneList, eraseRefList]
    exact congr (congrArg JsValueList.cons (eraseRef_deepClone v c))
      (eraseRefList_deepCloneList vs (deepClone v c).2)

theorem eraseRefFields_deepCloneFields : ∀ (fs : JsFieldList) (c : Nat),
    eraseRefFields (deepCloneFields fs c).1 = eraseRefFields fs
  | .nil, _ => rfl
  | .cons k v vs, c => by
    simp only [deepCloneFields, eraseRefFields]
    exact congr (congrArg (JsFieldList.cons k) (eraseRef_deepClone v c))
      (eraseRefFields_deepCloneFields vs (deepClone v c).2)
end

mutual
theorem deepClone_alloc_le : ∀ (v : JsValue) (c : Nat), c ≤ (deepClone v c).2
  | .prim _, _ => Nat.le_refl _
  | .atomic _ _, _ => Nat.le_refl _
  | .arr _ es, c => by
    simp only [deepClone]
    exact Nat.le_trans (Nat.le_succ c) (deepCloneList_alloc_le es (c + 1))
  | .obj _ fs, c => by
    simp only [deepClone]
    exact Nat.le_trans (Nat.le_succ c) (deepCloneFields_alloc_le fs (c + 1))

theorem deepCloneList_alloc_le : ∀ (es : JsValueList) (c : Nat),
    c ≤ (deepCloneList es c).2
  | .nil, _ => Nat.le_refl _
  | .cons v vs, c => by
    simp only [deepCloneList]
    exact Nat.le_trans (deepClone_alloc_le v c)
      (deepCloneList_alloc_le vs (deepClone v c).2)

theorem deepCloneFields_alloc_le : ∀ (fs : JsFieldList) (c : Nat),
    c ≤ (deepCloneFields fs c).2
  | .nil, _ => Nat.le_refl _
  | .cons _ v vs, c => by
    simp only [deepCloneFields]
    exact Nat.le_trans (deepClone_alloc_le v c)
      (deepCloneFields_alloc_le vs (deepClone v c).2)
end

mutual
theorem containersGE_deepClone : ∀ (v : JsValue) (c : Nat),
    containersGE c (deepClone v c).1
  | .prim _, _ => trivial
  | .atomic _ _, _ => trivial
  | .arr _ es, c => by
    simp only [deepClone, containersGE]
    exact ⟨Nat.le_refl c,
      containersGEList_mono (Nat.le_succ c) _ (containersGEList_deepCloneList es (c + 1))⟩
  | .obj _ fs, c => by
    simp only [deepClone, containersGE]
    exact ⟨Nat.le_refl c,
      containersGEFields_mono (Nat.le_succ c) _ (containersGEFields_deepCloneFields fs (c + 1))⟩

theorem containersGEList_deepCloneList : ∀ (es : JsValueList) (c : Nat),
    containersGEList c (deepCloneList es c).1
  | .nil, _ => trivial
  | .cons v vs, c => by
    simp only [deepCloneList, containersGEList]
    exact ⟨containersGE_deepClone v c,
      containersGEList_mono (deepClone_alloc_le v c) _
        (containersGEList_deepCloneList vs (deepClone v c).2)⟩

theorem containersGEFields_deepCloneFields : ∀ (fs : JsFieldList) (c : Nat),
    containersGEFields c (deepCloneFields fs c).1
  | .nil, _ => trivial
  | .cons _ v vs, c => by
    simp only [deepCloneFields, containersGEFields]
    exact ⟨containersGE_deepClone v c,
      containersGEFields_mono (deepClone_alloc_le v c) _
        (containersGEFields_deepCloneFields vs (deepClone v c).2)⟩

theorem containersGE_mono : ∀ {m n : Nat}, m ≤ n → ∀ (v : JsValue),
    containersGE n v → containersGE m v
  | _, _, _, .prim _, _ => trivial
  | _, _, _, .atomic _ _, _ => trivial
  | m, n, h, .arr _ es, hv => by
    simp only [containersGE] at hv ⊢
    exact ⟨Nat.le_trans h hv.1, containersGEList_mono h es hv.2⟩
  | m, n, h, .obj _ fs, hv => by
    simp only [containersGE] at hv ⊢
    exact ⟨Nat.le_trans h hv.1, containersGEFields_mono h fs hv.2⟩

theorem containersGEList_mono : ∀ {m n : Nat}, m ≤ n → ∀ (es : JsValueList),
    containersGEList n es → containersGEList m es
  | _, _, _, .nil, _ => trivial
  | m, n, h, .cons v vs, hv => by
    simp only [containersGEList] at hv ⊢
    exact ⟨containersGE_mono h v hv.1, containersGEList_mono h vs hv.2⟩

theorem containersGEFields_mono : ∀ {m n : Nat}, m ≤ n → ∀ (fs : JsFieldList),
    containersGEFields n fs → containersGEFields m fs
  | _, _, _, .nil, _ => trivial
  | m, n, h, .cons _ v vs, hv => by
    simp only [containersGEFields] at hv ⊢
    exact ⟨containersGE_mono h v hv.1, containersGEFields_mono h vs hv.2⟩
end

/-- A built result object: own enumerable string-keyed properties in
insertion order (the `obj` accumulated by `createOne`). -/
abbrev JsObject := List (String × JsValue)

/-- Property read `o[key]` (first matching key; keys are unique in objects
produced by `setKey`, which never duplicates a key). -/
def getKey : JsObject → String → Option JsValue
  | [], _ => none
  | (k, v) :: rest, key => if k = key then some v else getKey rest key

/-- Property assignment `o[key] = v`: overwrite in place when the key already
exists (keeping its original position, as JavaScript does), append otherwise. -/
def setKey : JsObject → String → JsValue → JsObject
  | [], key, v => [(key, v)]
  | (k, w) :: rest, key, v =>
    if k = key then (k, v) :: rest else (k, w) :: setKey rest key v

/-- The options bag accepted by the constructor and by `build()`:
`{ deepCopy?: boolean, skipValidation?: boolean }`, with `none` standing for
an absent property. -/
structure BuildOptions where
  deepCopy : Option Bool
  skipValidation : Option Bool
deriving DecidableEq, Repr

/-- A resolved field generator: the uniform shape every field value is
normalized to by `addField`.  It receives the partially built object, the
repetition index and the options bag, exactly as the source invokes
`generator(obj, index, options)`.  The final `Int` is the generator's private
closure state (used by `increment`; other generators ignore it), and the
result is `Except` because a user factory may throw. -/
abbrev GenFn := JsObject → Option Nat → BuildOptions → Int → Except String (JsValue × Int)

/-- One entry of the builder's ordered field registry (`FieldDefinition` in
the source), together with the current value of the generator's private
closure state. -/
structure FieldDef where
  name : String
  gen : GenFn
  state : Int

/-- The argument of `field(name, value)` / template entries: either a
constant value or a callable factory (`typeof val === "function"`). -/
inductive ValueOrFactory where
  | value (v : JsValue)
  | factory (f : GenFn)

/-- Constant-value wrapper produced by `addField` for non-callable values:
`() => val` — it ignores every argument and returns the same value by
reference each time. -/
def constGen (v : JsValue) : GenFn := fun _ _ _ s => .ok (v, s)

/-- Generator installed by `field(name).increment(start, step)`: it returns
the private counter's current value and then advances the counter by `step`.
The counter itself lives in the field definition's `state` (initialized to
`start` at chain time). -/
def incrementGen (step : Int) : GenFn :=
  fun _ _ _ counter => .ok (.prim (.num counter), counter + step)

/-- The builder instance state (`MockBuilder`'s private members). -/
structure MockBuilder where
  fields : List FieldDef
  repeatCount : Nat
  deepCopyEnabled : Bool
  defaultSkipValidation : Bool

/-- Embedding of `new MockBuilder(options?)`: empty field registry,
`repeatCount = 1`, and the two defaults overridden only when the
corresponding option is a boolean. -/
def MockBuilder.create (options : BuildOptions) : MockBuilder :=
  { fields := []
    repeatCount := 1
    deepCopyEnabled := options.deepCopy.getD true
    defaultSkipValidation := options.skipValidation.getD true }

/-- Embedding of the private `addField`: normalize the value through the
generator resolver and append to the registry — never deduplicate by name. -/
def MockBuilder.addField (b : MockBuilder) (name : String) (val : ValueOrFactory) :
    MockBuilder :=
  let generator : GenFn :=
    match val with
    | .factory f => fun obj index options s => f obj index options s
    | .value v => constGen v
  { b with fields := b.fields ++ [⟨name, generator, 0⟩] }

/-- Embedding of `field(name).increment(start, step)`: the private counter is
captured at chain time, initialized to `start`. -/
def MockBuilder.fieldIncrement (b : MockBuilder) (name : String) (start step : Int) :
    MockBuilder :=
  { b with fields := b.fields ++ [⟨name, incrementGen step, start⟩] }

/-- Embedding of `repeat(n)`: overwrite the repeat count (last call wins). -/
def MockBuilder.setRepeat (b : MockBuilder) (n : Nat) : MockBuilder :=
  { b with repeatCount := n }

/-- Embedding of `deepCopy(enabled)`. -/
def MockBuilder.setDeepCopy (b : MockBuilder) (enabled : Bool) : MockBuilder :=
  { b with deepCopyEnabled := enabled }

/-- A template object (`Record<string, any>`), in enumeration order of
`Object.entries`. -/
abbrev Template := List (String × ValueOrFactory)

/-- Embedding of `extend(template)`: add every entry as a field, in the
template's own enumeration order. -/
def MockBuilder.extend (b : MockBuilder) (template : Template) : MockBuilder :=
  template.foldl (fun acc kv => acc.addField kv.1 kv.2) b

/-- The process-wide preset registry (`MockBuilder.presets`). -/
abbrev Presets := List (String × Template)

/-- Registry lookup `MockBuilder.presets[name]`. -/
def lookupPreset : Presets → String → Option Template
  | [], _ => none
  | (k, t) :: rest, name => if k = name then some t else lookupPreset rest name

/-- Embedding of `static definePreset(name, template)`: store or silently
overwrite. -/
def definePreset (ps : Presets) (name : String) (template : Template) : Presets :=
  match ps with
  | [] => [(name, template)]
  | (k, t) :: rest =>
    if k = name then (k, template) :: rest else (k, t) :: definePreset rest name template

/-- Message of the error thrown by `preset(name)` when the name is unknown. -/
def presetNotFoundMsg (name : String) : String :=
  "Preset \"" ++ name ++ "\" not found."

/-- Embedding of `preset(name)`: look the name up in the process-wide
registry; throw (before touching the field registry) when absent, otherwise
behave exactly as `extend` on the stored template. -/
def MockBuilder.preset (b : MockBuilder) (ps : Presets) (name : String) :
    Except String MockBuilder :=
  match lookupPreset ps name with
  | none => .error (presetNotFoundMsg name)
  | some t => .ok (b.extend t)

/-- Record of one generator invocation performed by `createOne`: the field's
name, the generator itself, and the exact arguments it was called with
(partial object, repetition index, options bag, private state). -/
structure Invocation where
  name : String
  gen : GenFn
  obj : JsObject
  index : Option Nat
  options : BuildOptions
  state : Int

/-- Replay an invocation: apply the recorded generator to the recorded
arguments. -/
def Invocation.run (iv : Invocation) : Except String (JsValue × Int) :=
  iv.gen iv.obj iv.index iv.options iv.state

/-- Record of one assignment `obj[name] = ...` performed by `createOne`:
`raw` is the value the generator returned, `val` the value actually assigned
(equal to `raw`, or to its deep clone when deep copy is enabled). -/
structure Assign where
  name : String
  raw : JsValue
  val : JsValue

/-- Replay a sequence of assignments onto an object. -/
def applyAssigns (o : JsObject) (asgns : List Assign) : JsObject :=
  asgns.foldl (fun acc a => setKey acc a.name a.val) o

/-- Last value assigned under a key by a sequence of assignments, if any. -/
def lastAssigned : List Assign → String → Option JsValue
  | [], _ => none
  | a :: rest, key =>
    match lastAssigned rest key with
    | some v => some v
    | none => if a.name = key then some a.val else none

/-- Output of one `createOne` pass: the built object (or the exception a
generator threw), the field registry with advanced private states, the
allocation cursor, and the instrumentation (invocations and assignments in
execution order). -/
structure PassOut where
  result : Except String JsObject
  fields : List FieldDef
  alloc : Nat
  trace : List Invocation
  assigns : List Assign

/-- The assignment step `useDeepCopy ? deepClone(val) : val` of `createOne`,
together with the allocation cursor it leaves behind. -/
def dcApply (dc : Bool) (v : JsValue) (c : Nat) : JsValue × Nat :=
  if dc then deepClone v c else (v, c)

/-- The loop body of `createOne`: iterate the field registry in order; for
each entry invoke its generator with `(obj, index, options)`, deep-clone the
returned value when deep copy is enabled, and assign it under the field's
name.  A thrown exception propagates at once: no later field is touched and
no object is produced. -/
def runFields : List FieldDef → JsObject → Option Nat → BuildOptions → Bool → Nat → PassOut
  | [], o, _, _, _, c => ⟨.ok o, [], c, [], []⟩
  | fd :: rest, o, index, options, dc, c =>
    let iv : Invocation := ⟨fd.name, fd.gen, o, index, options, fd.state⟩
    match fd.gen o index options fd.state with
    | .error e => ⟨.error e, fd :: rest, c, [iv], []⟩
    | .ok (v, s) =>
      let cv := dcApply dc v c
      let o2 := setKey o fd.name cv.1
      let out := runFields rest o2 index options dc cv.2
      ⟨out.result, { fd with state := s } :: out.fields, out.alloc,
        iv :: out.trace, ⟨fd.name, v, cv.1⟩ :: out.assigns⟩

/-- Embedding of the `createOne(index?)` helper of `build()`: run the field
registry against an initially empty object. -/
def createOne (fields : List FieldDef) (index : Option Nat) (options : BuildOptions)
    (dc : Bool) (c : Nat) : PassOut :=
  runFields fields [] index options dc c

/-- Output of the batched construction loop. -/
structure BatchOut where
  result : Except String (List JsObject)
  fields : List FieldDef
  alloc : Nat
  trace : List Invocation
  assigns : List Assign

/-- Embedding of `Array.from({ length: n }, (_, index) => createOne(index))`:
one `createOne` pass per index, in order, threading the field registry's
private states and the allocation cursor; an exception in any pass aborts
the whole loop, discarding the partial array. -/
def buildMany : Nat → Nat → List FieldDef → BuildOptions → Bool → Nat → BatchOut
  | 0, _, fields, _, _, c => ⟨.ok [], fields, c, [], []⟩
  | n + 1, i, fields, options, dc, c =>
    let p := createOne fields (some i) options dc c
    match p.result with
    | .error e => ⟨.error e, p.fields, p.alloc, p.trace, p.assigns⟩
    | .ok o =>
      let rest := buildMany n (i + 1) p.fields options dc p.alloc
      match rest.result with
      | .error e => ⟨.error e, rest.fields, rest.alloc, p.trace ++ rest.trace,
          p.assigns ++ rest.assigns⟩
      | .ok os => ⟨.ok (o :: os), rest.fields, rest.alloc, p.trace ++ rest.trace,
          p.assigns ++ rest.assigns⟩

/-- Errors `build()` can complete with, by provenance: an exception thrown by
a user generator (propagated unchanged — the constructor only marks where it
came from), or the missing-required-key error thrown by `validateFields`. -/
inductive BuildErr where
  | generatorErr (msg : String)
  | missingField (key : String)
deriving DecidableEq, Repr

/-- Message text of the missing-required-key error. -/
def missingFieldMsg (key : String) : String :=
  "Missing field \"" ++ key ++ "\" in built object."

/-- Message carried by a build error. -/
def BuildErr.message : BuildErr → String
  | .generatorErr m => m
  | .missingField k => missingFieldMsg k

/-- Embedding of the `validateFields` helper of `build()`: throw on the
first expected key missing from the built object. -/
def validateFields (o : JsObject) : List String → Except BuildErr Unit
  | [] => .ok ()
  | key :: keys =>
    if (getKey o key).isSome then validateFields o keys
    else .error (.missingField key)

/-- Run `validateFields` on every object of a batch, in order. -/
def validateAll (keys : List String) : List JsObject → Except BuildErr Unit
  | [] => .ok ()
  | o :: os =>
    match validateFields o keys with
    | .error e => .error e
    | .ok _ => validateAll keys os

/-- Embedding of the `getTypeKeys` helper of `build()`: at runtime the type
parameter `T` is erased, so `Object.keys({} as T)` is always the key list of
the empty object — the empty list. -/
def getTypeKeys : List String := []

/-- Shape of a `build()` result: one object when `repeatCount == 1`, an
ordered sequence otherwise. -/
inductive BuildResult where
  | single (o : JsObject)
  | many (os : List JsObject)

/-- Full observable outcome of one `build()` call: the value returned (or
error thrown), the builder afterwards (its generators' private states
advanced), the allocation cursor, the caller's options object after `build`
wrote the resolved settings back into it, and the instrumentation. -/
structure BuildOut where
  result : Except BuildErr BuildResult
  builder : MockBuilder
  alloc : Nat
  optionsAfter : BuildOptions
  trace : List Invocation
  assigns : List Assign

/-- Embedding of `build(options = {})`.  Option precedence is resolved
(per-call over builder-level over default), the resolved booleans are written
back into the caller's options object (modelled by `optionsAfter`, which is
also the bag every generator receives), then either one `createOne` pass with
`index = undefined` or the batched loop runs, followed by the (inert, see
`getTypeKeys`) missing-required-key check. -/
def MockBuilder.build (b : MockBuilder) (options : BuildOptions) (c : Nat) : BuildOut :=
  let useDeepCopy := options.deepCopy.getD b.deepCopyEnabled
  let skipValidation := options.skipValidation.getD b.defaultSkipValidation
  let options2 : BuildOptions := ⟨some useDeepCopy, some skipValidation⟩
  let typeKeys := getTypeKeys
  if b.repeatCount = 1 then
    let p := createOne b.fields none options2 useDeepCopy c
    match p.result with
    | .error e =>
      ⟨.error (.generatorErr e), { b with fields := p.fields }, p.alloc, options2,
        p.trace, p.assigns⟩
    | .ok o =>
      match (if !skipValidation && decide (typeKeys.length > 0)
             then validateFields o typeKeys else .ok ()) with
      | .error e =>
        ⟨.error e, { b with fields := p.fields }, p.alloc, options2, p.trace, p.assigns⟩
      | .ok _ =>
        ⟨.ok (.single o), { b with fields := p.fields }, p.alloc, options2,
          p.trace, p.assigns⟩
  else
    let bm := buildMany b.repeatCount 0 b.fields options2 useDeepCopy c
    match bm.result with
    | .error e =>
      ⟨.error (.generatorErr e), { b with fields := bm.fields }, bm.alloc, options2,
        bm.trace, bm.assigns⟩
    | .ok os =>
      match (if !skipValidation && decide (typeKeys.length > 0)
             then validateAll typeKeys os else .ok ()) with
      | .error e =>
        ⟨.error e, { b with fields := bm.fields }, bm.alloc, options2, bm.trace,
          bm.assigns⟩
      | .ok _ =>
        ⟨.ok (.many os), { b with fields := bm.fields }, bm.alloc, options2,
          bm.trace, bm.assigns⟩

theorem getKey_setKey (o : JsObject) (k key : String) (v : JsValue) :
    getKey (setKey o k v) key = if k = key then some v else getKey o key := by
  induction o with
  | nil => simp [setKey, getKey]
  | cons p rest ih =>
    obtain ⟨k0, w⟩ := p
    by_cases h1 : k0 = k
    · subst h1
      by_cases h2 : k0 = key <;> simp [setKey, getKey, h2]
    · by_cases h2 : k0 = key
      · subst h2
        have h3 : ¬(k = k0) := fun hh => h1 hh.symm
        simp [setKey, getKey, h1, h3]
      · simp [setKey, getKey, h1, h2, ih]

@[simp] theorem applyAssigns_nil (o : JsObject) : applyAssigns o [] = o := rfl

@[simp] theorem applyAssigns_cons (o : JsObject) (a : Assign) (rest : List Assign) :
    applyAssigns o (a :: rest) = applyAssigns (setKey o a.name a.val) rest := rfl

theorem getKey_applyAssigns_none (asgns : List Assign) (o : JsObject) (key : String)
    (h : lastAssigned asgns key = none) :
    getKey (applyAssigns o asgns) key = getKey o key := by
  induction asgns generalizing o with
  | nil => rfl
  | cons a rest ih =>
    simp only [lastAssigned] at h
    cases hl : lastAssigned rest key with
    | some w => rw [hl] at h; simp at h
    | none =>
      rw [hl] at h
      by_cases hn : a.name = key
      · simp [hn] at h
      · simp only [applyAssigns_cons]
        rw [ih _ hl, getKey_setKey, if_neg hn]

theorem getKey_applyAssigns_some (asgns : List Assign) (o : JsObject) (key : String)
    (v : JsValue) (h : lastAssigned asgns key = some v) :
    getKey (applyAssigns o asgns) key = some v := by
  induction asgns generalizing o with
  | nil => simp [lastAssigned] at h
  | cons a rest ih =>
    simp only [lastAssigned] at h
    cases hl : lastAssigned rest key with
    | some w =>
      rw [hl] at h
      simp only [Option.some.injEq] at h
      subst h
      exact ih _ hl
    | none =>
      rw [hl] at h
      by_cases hn : a.name = key
      · rw [if_pos hn, Option.some.injEq] at h
        subst h
        simp only [applyAssigns_cons]
        have := getKey_applyAssigns_none rest (setKey o a.name a.val) key hl
        rw [this, getKey_setKey, if_pos hn]
      · simp [hn] at h

@[simp] theorem runFields_nil (o : JsObject) (index : Option Nat) (options : BuildOptions)
    (dc : Bool) (c : Nat) : runFields [] o index options dc c = ⟨.ok o, [], c, [], []⟩ := rfl

theorem runFields_cons_err (fd : FieldDef) (rest : List FieldDef) (o : JsObject)
    (index : Option Nat) (options : BuildOptions) (dc : Bool) (c : Nat) (e : String)
    (h : fd.gen o index options fd.state = .error e) :
    runFields (fd :: rest) o index options dc c =
      ⟨.error e, fd :: rest, c, [⟨fd.name, fd.gen, o, index, options, fd.state⟩], []⟩ := by
  simp [runFields, h]

theorem runFields_cons_ok (fd : FieldDef) (rest : List FieldDef) (o : JsObject)
    (index : Option Nat) (options : BuildOptions) (dc : Bool) (c : Nat) (v : JsValue)
    (s : Int) (h : fd.gen o index options fd.state = .ok (v, s)) :
    runFields (fd :: rest) o index options dc c =
      (let cv := dcApply dc v c
       let out := runFields rest (setKey o fd.name cv.1) index options dc cv.2
       ⟨out.result, { fd with state := s } :: out.fields, out.alloc,
         ⟨fd.name, fd.gen, o, index, options, fd.state⟩ :: out.trace,
         ⟨fd.name, v, cv.1⟩ :: out.assigns⟩) := by
  simp [runFields, h]

theorem runFields_ok_spec (fields : List FieldDef) (o : JsObject) (index : Option Nat)
    (options : BuildOptions) (dc : Bool) (c : Nat) (res : JsObject)
    (h : (runFields fields o index options dc c).result = .ok res) :
    (runFields fields o index options dc c).trace.length = fields.length ∧
    (runFields fields o index options dc c).assigns.length = fields.length ∧
    res = applyAssigns o (runFields fields o index options dc c).assigns ∧
    (runFields fields o index options dc c).trace.map Invocation.name =
      fields.map FieldDef.name ∧
    (runFields fields o index options dc c).assigns.map Assign.name =
      fields.map FieldDef.name := by
  induction fields generalizing o c with
  | nil =>
    simp only [runFields_nil] at h ⊢
    cases h
    simp
  | cons fd rest ih =>
    cases hg : fd.gen o index options fd.state with
    | error e =>
      rw [runFields_cons_err fd rest o index options dc c e hg] at h
      cases h
    | ok vs =>
      obtain ⟨v, s⟩ := vs
      rw [runFields_cons_ok fd rest o index options dc c v s hg] at h ⊢
      simp only [List.length_cons, List.map_cons, applyAssigns_cons] at h ⊢
      have := ih (setKey o fd.name (dcApply dc v c).1) (dcApply dc v c).2 h
      exact ⟨by rw [this.1], by rw [this.2.1], this.2.2.1, by rw [this.2.2.2.1],
        by rw [this.2.2.2.2]⟩

theorem runFields_ok_at (fields : List FieldDef) (o : JsObject) (index : Option Nat)
    (options : BuildOptions) (dc : Bool) (c : Nat) (res : JsObject)
    (h : (runFields fields o index options dc c).result = .ok res) :
    ∀ (k : Nat) (iv : Invocation) (a : Assign),
      (runFields fields o index options dc c).trace.get? k = some iv →
      (runFields fields o index options dc c).assigns.get? k = some a →
      iv.obj = applyAssigns o ((runFields fields o index options dc c).assigns.take k) ∧
      iv.index = index ∧ iv.options = options ∧ iv.name = a.name ∧
      (∃ s2, iv.run = .ok (a.raw, s2)) ∧
      (dc = false → a.val = a.raw) ∧
      (dc = true → ∃ c2, a.val = (deepClone a.raw c2).1) := by
  induction fields generalizing o c with
  | nil =>
    intro k iv a ht _
    simp [runFields_nil] at ht
  | cons fd rest ih =>
    intro k iv a ht ha
    cases hg : fd.gen o index options fd.state with
    | error e =>
      rw [runFields_cons_err fd rest o index options dc c e hg] at h
      cases h
    | ok vs =>
      obtain ⟨v, s⟩ := vs
      rw [runFields_cons_ok fd rest o index options dc c v s hg] at h ht ha ⊢
      simp only at h ht ha ⊢
      cases k with
      | zero =>
        simp only [List.get?_cons_zero, Option.some.injEq] at ht ha
        subst ht
        subst ha
        refine ⟨rfl, rfl, rfl, rfl, ⟨s, by simpa [Invocation.run] using hg⟩, ?_, ?_⟩
        · intro hdc
          simp [dcApply, hdc]
        · intro hdc
          exact ⟨c, by simp [dcApply, hdc]⟩
      | succ k =>
        simp only [List.get?_cons_succ] at ht ha
        have := ih (setKey o fd.name (dcApply dc v c).1) (dcApply dc v c).2 h k iv a ht ha
        simpa [List.take_succ_cons] using this

theorem runFields_trace_mem (fields : List FieldDef) (o : JsObject) (index : Option Nat)
    (options : BuildOptions) (dc : Bool) (c : Nat) :
    ∀ iv ∈ (runFields fields o index options dc c).trace,
      iv.index = index ∧ iv.options = options := by
  induction fields generalizing o c with
  | nil => intro iv hm; simp [runFields_nil] at hm
  | cons fd rest ih =>
    intro iv hm
    cases hg : fd.gen o index options fd.state with
    | error e =>
      rw [runFields_cons_err fd rest o index options dc c e hg] at hm
      simp only [List.mem_singleton] at hm
      subst hm
      exact ⟨rfl, rfl⟩
    | ok vs =>
      obtain ⟨v, s⟩ := vs
      rw [runFields_cons_ok fd rest o index options dc c v s hg] at hm
      simp only [List.mem_cons] at hm
      rcases hm with hm | hm
      · subst hm; exact ⟨rfl, rfl⟩
      · exact ih _ _ iv hm

theorem runFields_ok_run (fields : List FieldDef) (o : JsObject) (index : Option Nat)
    (options : BuildOptions) (dc : Bool) (c : Nat) (res : JsObject)
    (h : (runFields fields o index options dc c).result = .ok res) :
    ∀ iv ∈ (runFields fields o index options dc c).trace, ∃ y, iv.run = .ok y := by
  induction fields generalizing o c with
  | nil => intro iv hm; simp [runFields_nil] at hm
  | cons fd rest ih =>
    intro iv hm
    cases hg : fd.gen o index options fd.state with
    | error e =>
      rw [runFields_cons_err fd rest o index options dc c e hg] at h
      cases h
    | ok vs =>
      obtain ⟨v, s⟩ := vs
      rw [runFields_cons_ok fd rest o index options dc c v s hg] at h hm
      simp only [List.mem_cons] at hm
      rcases hm with hm | hm
      · subst hm
        exact ⟨(v, s), by simpa [Invocation.run] using hg⟩
      · exact ih _ _ h iv hm

theorem runFields_err_split (fields : List FieldDef) (o : JsObject) (index : Option Nat)
    (options : BuildOptions) (dc : Bool) (c : Nat) (e : String)
    (h : (runFields fields o index options dc c).result = .error e) :
    ∃ pre iv, (runFields fields o index options dc c).trace = pre ++ [iv] ∧
      iv.run = .error e ∧ ∀ x ∈ pre, ∃ y, x.run = .ok y := by
  induction fields generalizing o c with
  | nil => cases h
  | cons fd rest ih =>
    cases hg : fd.gen o index options fd.state with
    | error e0 =>
      rw [runFields_cons_err fd rest o index options dc c e0 hg] at h ⊢
      simp only [Except.error.injEq] at h
      subst h
      exact ⟨[], ⟨fd.name, fd.gen, o, index, options, fd.state⟩, rfl,
        by simpa [Invocation.run] using hg, by simp⟩
    | ok vs =>
      obtain ⟨v, s⟩ := vs
      rw [runFields_cons_ok fd rest o index options dc c v s hg] at h ⊢
      simp only at h ⊢
      obtain ⟨pre, iv, htr, hrun, hpre⟩ := ih _ _ h
      refine ⟨⟨fd.name, fd.gen, o, index, options, fd.state⟩ :: pre, iv,
        by rw [htr]; rfl, hrun, ?_⟩
      intro x hx
      simp only [List.mem_cons] at hx
      rcases hx with hx | hx
      · subst hx
        exact ⟨(v, s), by simpa [Invocation.run] using hg⟩
      · exact hpre x hx

@[simp] theorem buildMany_zero (i : Nat) (fields : List FieldDef) (options : BuildOptions)
    (dc : Bool) (c : Nat) : buildMany 0 i fields options dc c = ⟨.ok [], fields, c, [], []⟩ := rfl

theorem buildMany_succ_err (n i : Nat) (fields : List FieldDef) (options : BuildOptions)
    (dc : Bool) (c : Nat) (e : String)
    (h : (createOne fields (some i) options dc c).result = .error e) :
    buildMany (n + 1) i fields options dc c =
      ⟨.error e, (createOne fields (some i) options dc c).fields,
        (createOne fields (some i) options dc c).alloc,
        (createOne fields (some i) options dc c).trace,
        (createOne fields (some i) options dc c).assigns⟩ := by
  simp only [buildMany]
  rw [h]

theorem buildMany_succ_ok (n i : Nat) (fields : List FieldDef) (options : BuildOptions)
    (dc : Bool) (c : Nat) (o : JsObject)
    (h : (createOne fields (some i) options dc c).result = .ok o) :
    buildMany (n + 1) i fields options dc c =
      (let p := createOne fields (some i) options dc c
       let rest := buildMany n (i + 1) p.fields options dc p.alloc
       match rest.result with
       | .error e => ⟨.error e, rest.fields, rest.alloc, p.trace ++ rest.trace,
           p.assigns ++ rest.assigns⟩
       | .ok os => ⟨.ok (o :: os), rest.fields, rest.alloc, p.trace ++ rest.trace,
           p.assigns ++ rest.assigns⟩) := by
  simp only [buildMany]
  rw [h]

theorem buildMany_ok_length (n i : Nat) (fields : List FieldDef) (options : BuildOptions)
    (dc : Bool) (c : Nat) (os : List JsObject)
    (h : (buildMany n i fields options dc c).result = .ok os) : os.length = n := by
  induction n generalizing i fields c os with
  | zero =>
    simp only [buildMany_zero] at h
    cases h
    rfl
  | succ n ih =>
    cases hp : (createOne fields (some i) options dc c).result with
    | error e =>
      rw [buildMany_succ_err n i fields options dc c e hp] at h
      cases h
    | ok o =>
      rw [buildMany_succ_ok n i fields options dc c o hp] at h
      simp only at h
      cases hr : (buildMany n (i + 1) (createOne fields (some i) options dc c).fields
          options dc (createOne fields (some i) options dc c).alloc).result with
      | error e => rw [hr] at h; cases h
      | ok os2 =>
        rw [hr] at h
        simp only [Except.ok.injEq] at h
        subst h
        simp [ih _ _ _ _ hr]

theorem buildMany_trace_mem (n i : Nat) (fields : List FieldDef) (options : BuildOptions)
    (dc : Bool) (c : Nat) :
    ∀ iv ∈ (buildMany n i fields options dc c).trace,
      ∃ j, iv.index = some j ∧ i ≤ j ∧ j < i + n ∧ iv.options = options := by
  induction n generalizing i fields c with
  | zero => intro iv hm; simp [buildMany_zero] at hm
  | succ n ih =>
    intro iv hm
    cases hp : (createOne fields (some i) options dc c).result with
    | error e =>
      rw [buildMany_succ_err n i fields options dc c e hp] at hm
      have := runFields_trace_mem fields [] (some i) options dc c iv hm
      exact ⟨i, this.1, Nat.le_refl i, by omega, this.2⟩
    | ok o =>
      rw [buildMany_succ_ok n i fields options dc c o hp] at hm
      simp only at hm
      have hsplit : iv ∈ (createOne fields (some i) options dc c).trace ∨
          iv ∈ (buildMany n (i + 1) (createOne fields (some i) options dc c).fields
            options dc (createOne fields (some i) options dc c).alloc).trace := by
        cases hr : (buildMany n (i + 1) (createOne fields (some i) options dc c).fields
            options dc (createOne fields (some i) options dc c).alloc).result with
        | error e =>
          rw [hr] at hm
          simpa using List.mem_append.mp (by simpa using hm)
        | ok os2 =>
          rw [hr] at hm
          simpa using List.mem_append.mp (by simpa using hm)
      rcases hsplit with hmem | hmem
      · have := runFields_trace_mem fields [] (some i) options dc c iv hmem
        exact ⟨i, this.1, Nat.le_refl i, by omega, this.2⟩
      · obtain ⟨j, hj1, hj2, hj3, hj4⟩ := ih (i + 1) _ _ iv hmem
        exact ⟨j, hj1, by omega, by omega, hj4⟩

theorem buildMany_ok_run (n i : Nat) (fields : List FieldDef) (options : BuildOptions)
    (dc : Bool) (c : Nat) (os : List JsObject)
    (h : (buildMany n i fields options dc c).result = .ok os) :
    ∀ iv ∈ (buildMany n i fields options dc c).trace, ∃ y, iv.run = .ok y := by
  induction n generalizing i fields c os with
  | zero => intro iv hm; simp [buildMany_zero] at hm
  | succ n ih =>
    intro iv hm
    cases hp : (createOne fields (some i) options dc c).result with
    | error e =>
      rw [buildMany_succ_err n i fields options dc c e hp] at h
      cases h
    | ok o =>
      rw [buildMany_succ_ok n i fields options dc c o hp] at h hm
      simp only at h hm
      cases hr : (buildMany n (i + 1) (createOne fields (some i) options dc c).fields
          options dc (createOne fields (some i) options dc c).alloc).result with
      | error e => rw [hr] at h; cases h
      | ok os2 =>
        rw [hr] at hm
        simp only at hm
        rcases List.mem_append.mp hm with hmem | hmem
        · exact runFields_ok_run fields [] (some i) options dc c o hp iv hmem
        · exact ih (i + 1) _ _ _ hr iv hmem

theorem buildMany_err_split (n i : Nat) (fields : List FieldDef) (options : BuildOptions)
    (dc : Bool) (c : Nat) (e : String)
    (h : (buildMany n i fields options dc c).result = .error e) :
    ∃ pre iv, (buildMany n i fields options dc c).trace = pre ++ [iv] ∧
      iv.run = .error e ∧ ∀ x ∈ pre, ∃ y, x.run = .ok y := by
  induction n generalizing i fields c with
  | zero => cases h
  | succ n ih =>
    cases hp : (createOne fields (some i) options dc c).result with
    | error e0 =>
      rw [buildMany_succ_err n i fields options dc c e0 hp] at h ⊢
      simp only [Except.error.injEq] at h
      subst h
      exact runFields_err_split fields [] (some i) options dc c e0 hp
    | ok o =>
      rw [buildMany_succ_ok n i fields options dc c o hp] at h ⊢
      simp only at h ⊢
      cases hr : (buildMany n (i + 1) (createOne fields (some i) options dc c).fields
          options dc (createOne fields (some i) options dc c).alloc).result with
      | error e2 =>
        rw [hr] at h
        dsimp only at h ⊢
        simp only [Except.error.injEq] at h
        subst h
        obtain ⟨pre, iv, htr, hrun, hpre⟩ := ih (i + 1) _ _ hr
        refine ⟨(createOne fields (some i) options dc c).trace ++ pre, iv,
          by rw [htr, List.append_assoc], hrun, ?_⟩
        intro x hx
        rcases List.mem_append.mp hx with hmem | hmem
        · exact runFields_ok_run fields [] (some i) options dc c o hp x hmem
        · exact hpre x hmem
      | ok os2 => rw [hr] at h; cases h

theorem build_eq (b : MockBuilder) (options : BuildOptions) (c : Nat) :
    b.build options c =
      (let useDeepCopy := options.deepCopy.getD b.deepCopyEnabled
       let skipValidation := options.skipValidation.getD b.defaultSkipValidation
       let options2 : BuildOptions := ⟨some useDeepCopy, some skipValidation⟩
       if b.repeatCount = 1 then
         let p := createOne b.fields none options2 useDeepCopy c
         match p.result with
         | .error e =>
           ⟨.error (.generatorErr e), { b with fields := p.fields }, p.alloc, options2,
             p.trace, p.assigns⟩
         | .ok o =>
           ⟨.ok (.single o), { b with fields := p.fields }, p.alloc, options2,
             p.trace, p.assigns⟩
       else
         let bm := buildMany b.repeatCount 0 b.fields options2 useDeepCopy c
         match bm.result with
         | .error e =>
           ⟨.error (.generatorErr e), { b with fields := bm.fields }, bm.alloc, options2,
             bm.trace, bm.assigns⟩
         | .ok os =>
           ⟨.ok (.many os), { b with fields := bm.fields }, bm.alloc, options2,
             bm.trace, bm.assigns⟩) := by
  simp only [MockBuilder.build, getTypeKeys, List.length_nil, Nat.lt_irrefl, decide_False,
    Bool.and_false, Bool.false_eq_true, if_false]

/-- Modelled from the spec: the outcome of a per-field validation rule,
`(value) -> { success: boolean, errorMsg?: string }`.  The `validator`
registration and the validation step of the build executor belong to this
repository's published API (its test suite exercises
`.validator(name, rule)` and newline-joined aggregate errors) but are absent
from the provided source file, so they are modelled from the spec here. -/
structure ValidationResult where
  success : Bool
  errorMsg : String

/-- Modelled from the spec: a validation rule attached to one field name. -/
abbrev ValidationRule := JsValue → ValidationResult

/-- Modelled from the spec: the builder's `validators` mapping from field
name to rule; absence of a rule means the field is never checked. -/
abbrev Validators := List (String × ValidationRule)

/-- Rule lookup by field name. -/
def lookupRule : Validators → String → Option ValidationRule
  | [], _ => none
  | (k, r) :: rest, name => if k = name then some r else lookupRule rest name

/-- Modelled from the spec: compose an aggregate failure message from the
collected messages, joined by newline, in their encounter order. -/
def joinMsgs : List String → String
  | [] => ""
  | [m] => m
  | m :: rest => m ++ "\n" ++ joinMsgs rest

/-- Modelled from the spec: walk the fields in declaration order; for each
field that has a registered rule, run the rule against the field's
already-computed value in the built object, recording the invocation and
collecting the `errorMsg` of every failing rule (rules returning
`success: true` contribute nothing and their message is never consulted). -/
def collectFailures (rules : Validators) (names : List String) (o : JsObject) :
    List String × List (String × JsValue) :=
  match names with
  | [] => ([], [])
  | name :: rest =>
    let head : List String × List (String × JsValue) :=
      match lookupRule rules name with
      | none => ([], [])
      | some rule =>
        let value := (getKey o name).getD (.prim .undef)
        let r := rule value
        (if r.success then [] else [r.errorMsg], [(name, value)])
    let restOut := collectFailures rules rest o
    (head.1 ++ restOut.1, head.2 ++ restOut.2)

/-- Modelled from the spec: collect validation failures across all objects
of a batch, in repetition order. -/
def collectBatch (rules : Validators) (names : List String) :
    List JsObject → List String × List (String × JsValue)
  | [] => ([], [])
  | o :: os =>
    let head := collectFailures rules names o
    let rest := collectBatch rules names os
    (head.1 ++ rest.1, head.2 ++ rest.2)

/-- Outcome of the spec-modelled build-with-validation: the result, the
updated builder, and the trace of validator invocations (field name and the
value the rule was applied to, in encounter order). -/
structure VBuildOut where
  result : Except String BuildResult
  builder : MockBuilder
  vtrace : List (String × JsValue)

/-- Modelled from the spec: the build executor including the validation
step.  Construction is exactly the embedded `build()` pipeline; afterwards,
when the resolved `skipValidation` is false, every registered validator runs
against the corresponding field's computed value (across fields in
declaration order and objects in repetition order) and any collected
failures abort the build with the newline-joined aggregate message.  When
`skipValidation` is true the validators are not invoked at all. -/
def buildWithValidators (b : MockBuilder) (rules : Validators) (options : BuildOptions)
    (c : Nat) : VBuildOut :=
  let useDeepCopy := options.deepCopy.getD b.deepCopyEnabled
  let skipValidation := options.skipValidation.getD b.defaultSkipValidation
  let options2 : BuildOptions := ⟨some useDeepCopy, some skipValidation⟩
  let names := b.fields.map FieldDef.name
  if b.repeatCount = 1 then
    let p := createOne b.fields none options2 useDeepCopy c
    match p.result with
    | .error e => ⟨.error e, { b with fields := p.fields }, []⟩
    | .ok o =>
      if skipValidation then ⟨.ok (.single o), { b with fields := p.fields }, []⟩
      else
        let col := collectFailures rules names o
        if col.1.isEmpty then ⟨.ok (.single o), { b with fields := p.fields }, col.2⟩
        else ⟨.error (joinMsgs col.1), { b with fields := p.fields }, col.2⟩
  else
    let bm := buildMany b.repeatCount 0 b.fields options2 useDeepCopy c
    match bm.result with
    | .error e => ⟨.error e, { b with fields := bm.fields }, []⟩
    | .ok os =>
      if skipValidation then ⟨.ok (.many os), { b with fields := bm.fields }, []⟩
      else
        let col := collectBatch rules names os
        if col.1.isEmpty then ⟨.ok (.many os), { b with fields := bm.fields }, col.2⟩
        else ⟨.error (joinMsgs col.1), { b with fields := bm.fields }, col.2⟩

theorem joinMsgs_mem_infix (msgs : List String) :
    ∀ m ∈ msgs, m.data <:+: (joinMsgs msgs).data := by
  induction msgs with
  | nil => intro m hm; cases hm
  | cons a rest ih =>
    intro m hm
    cases rest with
    | nil =>
      simp only [List.mem_singleton] at hm
      subst hm
      exact List.infix_rfl
    | cons b rest2 =>
      simp only [joinMsgs]
      rcases List.mem_cons.mp hm with hm | hm
      · subst hm
        exact ⟨[], ((String.mk [Char.ofNat 10]) ++ joinMsgs (b :: rest2)).data, by
          simp [String.data_append]⟩
      · have h1 := ih m hm
        have h2 : (joinMsgs (b :: rest2)).data <:+: (a ++ "\n" ++ joinMsgs (b :: rest2)).data := by
          exact ⟨(a ++ "\n").data, [], by simp [String.data_append]⟩
        exact h1.trans h2

theorem collectFailures_mem (rules : Validators) (names : List String) (o : JsObject)
    (name : String) (rule : ValidationRule) (hmem : name ∈ names)
    (hrule : lookupRule rules name = some rule)
    (hfail : (rule ((getKey o name).getD (.prim .undef))).success = false) :
    (rule ((getKey o name).getD (.prim .undef))).errorMsg ∈
      (collectFailures rules names o).1 := by
  induction names with
  | nil => cases hmem
  | cons a rest ih =>
    simp only [collectFailures]
    rcases List.mem_cons.mp hmem with hm | hm
    · subst hm
      rw [hrule]
      simp only [hfail]
      simp
    · cases hr : lookupRule rules a with
      | none => simpa using ih hm
      | some rule2 =>
        simp only [List.mem_append]
        exact Or.inr (ih hm)

theorem collectBatch_mem (rules : Validators) (names : List String) (os : List JsObject)
    (o : JsObject) (hmem : o ∈ os) (m : String)
    (hm : m ∈ (collectFailures rules names o).1) :
    m ∈ (collectBatch rules names os).1 := by
  induction os with
  | nil => cases hmem
  | cons a rest ih =>
    simp only [collectBatch, List.mem_append]
    rcases List.mem_cons.mp hmem with h | h
    · subst h
      exact Or.inl hm
    · exact Or.inr (ih h)

/-- C5: `deepClone` returns primitives and the opaque kinds (Date, RegExp,
Function, Map, Set, WeakMap, WeakSet, Error, Promise) unchanged — the very
same reference; it rebuilds arrays and plain objects as fresh containers
(every container node of the clone bears a newly allocated reference `≥ c`,
in particular the root's reference is exactly the cursor `c`, so it differs
from the original whenever the original's reference is not `c`) while
preserving the entire structure (`eraseRef`-equality: same keys, same
element order, recursively cloned children).  Consequently, with deep copy
enabled a constant container field value is assigned as its clone, and with
deep copy disabled the same reference `v` is assigned into every result of
a batch. -/
theorem C5_deepClone_correct :
    (∀ (p : Prim) (c : Nat), deepClone (.prim p) c = (.prim p, c)) ∧
    (∀ (k : AtomicKind) (r c : Nat), deepClone (.atomic k r) c = (.atomic k r, c)) ∧
    (∀ (v : JsValue) (c : Nat), eraseRef (deepClone v c).1 = eraseRef v) ∧
    (∀ (v : JsValue) (c : Nat), containersGE c (deepClone v c).1) ∧
    (∀ (r : Nat) (es : JsValueList) (c : Nat),
      (deepClone (.arr r es) c).1.rootRef = some c) ∧
    (∀ (r : Nat) (fs : JsFieldList) (c : Nat),
      (deepClone (.obj r fs) c).1.rootRef = some c) ∧
    (∀ (name : String) (v : JsValue) (c : Nat),
      (((MockBuilder.create ⟨none, none⟩).addField name (.value v)).build
          ⟨none, none⟩ c).result = .ok (.single [(name, (deepClone v c).1)])) ∧
    (∀ (name : String) (v : JsValue) (c : Nat),
      (((((MockBuilder.create ⟨none, none⟩).addField name (.value v)).setDeepCopy
          false).setRepeat 2).build ⟨none, none⟩ c).result =
        .ok (.many [[(name, v)], [(name, v)]])) := by
  refine ⟨fun p c => rfl, fun k r c => rfl, eraseRef_deepClone, containersGE_deepClone,
    fun r es c => rfl, fun r fs c => rfl, fun name v c => rfl, fun name v c => rfl⟩

/-- C8: applying `preset(name)` with a name absent from the process-wide
registry throws synchronously with a message that contains the missing name
(so the chain yields no updated builder and the field sequence is left as it
was); with a registered name it behaves exactly as `extend` applied to the
stored template. -/
theorem C8_preset_behavior (ps : Presets) (b : MockBuilder) (name : String) :
    (lookupPreset ps name = none →
      b.preset ps name = .error (presetNotFoundMsg name) ∧
      name.data <:+: (presetNotFoundMsg name).data) ∧
    (∀ t, lookupPreset ps name = some t → b.preset ps name = .ok (b.extend t)) := by
  constructor
  · intro h
    refine ⟨by simp [MockBuilder.preset, h], ?_⟩
    exact ⟨("Preset \"").data, ("\" not found.").data, by simp [presetNotFoundMsg,
      String.data_append]⟩
  · intro t h
    simp [MockBuilder.preset, h]

/-- C8 witness: with a registry holding only `user`, `preset("missing")`
fails with a message containing `missing`, and `preset("user")` extends the
builder with the stored template. -/
theorem C8_preset_behavior_witness :
    (lookupPreset [("user", [("name", ValueOrFactory.value (.prim (.str "Alice")))])]
        "missing" = none ∧
      (MockBuilder.create ⟨none, none⟩).preset
          [("user", [("name", ValueOrFactory.value (.prim (.str "Alice")))])] "missing" =
        .error (presetNotFoundMsg "missing") ∧
      ("missing").data <:+: (presetNotFoundMsg "missing").data) ∧
    (lookupPreset [("user", [("name", ValueOrFactory.value (.prim (.str "Alice")))])]
        "user" = some [("name", ValueOrFactory.value (.prim (.str "Alice")))] ∧
      (MockBuilder.create ⟨none, none⟩).preset
          [("user", [("name", ValueOrFactory.value (.prim (.str "Alice")))])] "user" =
        .ok ((MockBuilder.create ⟨none, none⟩).extend
          [("name", ValueOrFactory.value (.prim (.str "Alice")))])) :=
  ⟨⟨rfl, (C8_preset_behavior _ _ "missing").1 rfl⟩,
   ⟨rfl, (C8_preset_behavior _ _ "user").2 _ rfl⟩⟩

/-- C9: the runtime expected-key set `getTypeKeys` obtained from the erased
type parameter is always empty, so no call of `build()` — whatever the
builder state and options — can complete with the missing-required-key error
`Missing field ... in built object.`; the `validateFields` helper itself is
capable of throwing it, but only when driven with an explicit non-empty key
set, which the `build()` interface never supplies. -/
theorem C9_missing_key_check_inert :
    getTypeKeys = [] ∧
    (∀ (o : JsObject) (key : String), getKey o key = none →
      validateFields o [key] = .error (.missingField key)) ∧
    (∀ (b : MockBuilder) (options : BuildOptions) (c : Nat) (key : String),
      (b.build options c).result ≠ .error (.missingField key)) := by
  refine ⟨rfl, ?_, ?_⟩
  · intro o key h
    simp [validateFields, h]
  · intro b options c key
    rw [build_eq]
    dsimp only
    by_cases hrep : b.repeatCount = 1
    · rw [if_pos hrep]
      cases hres : (createOne b.fields none
          ⟨some (options.deepCopy.getD b.deepCopyEnabled),
           some (options.skipValidation.getD b.defaultSkipValidation)⟩
          (options.deepCopy.getD b.deepCopyEnabled) c).result <;> simp
    · rw [if_neg hrep]
      cases hres : (buildMany b.repeatCount 0 b.fields
          ⟨some (options.deepCopy.getD b.deepCopyEnabled),
           some (options.skipValidation.getD b.defaultSkipValidation)⟩
          (options.deepCopy.getD b.deepCopyEnabled) c).result <;> simp

/-- C9 witness: a concrete empty builder's `build()` does not yield the
missing-field error, while `validateFields` driven with an explicit key on
an empty object does produce exactly that error. -/
theorem C9_missing_key_check_inert_witness :
    ((MockBuilder.create ⟨none, none⟩).build ⟨none, none⟩ 0).result ≠
      .error (.missingField "active") ∧
    getKey [] "active" = none ∧
    validateFields [] ["active"] = .error (.missingField "active") :=
  ⟨C9_missing_key_check_inert.2.2 (MockBuilder.create ⟨none, none⟩) ⟨none, none⟩ 0 "active",
   rfl, C9_missing_key_check_inert.2.1 [] "active" rfl⟩

/-- C10: `build(opts)` writes the resolved `deepCopy` and `skipValidation`
booleans back into the caller's options object (modelled by `optionsAfter`),
and that same mutated object is the options argument every generator
invocation of the build receives. -/
theorem C10_build_mutates_options (b : MockBuilder) (options : BuildOptions) (c : Nat) :
    (b.build options c).optionsAfter =
      ⟨some (options.deepCopy.getD b.deepCopyEnabled),
       some (options.skipValidation.getD b.defaultSkipValidation)⟩ ∧
    ∀ iv ∈ (b.build options c).trace, iv.options = (b.build options c).optionsAfter := by
  rw [build_eq]
  dsimp only
  by_cases hrep : b.repeatCount = 1
  · rw [if_pos hrep]
    cases hres : (createOne b.fields none
        ⟨some (options.deepCopy.getD b.deepCopyEnabled),
         some (options.skipValidation.getD b.defaultSkipValidation)⟩
        (options.deepCopy.getD b.deepCopyEnabled) c).result with
    | error e =>
      refine ⟨rfl, fun iv hm => ?_⟩
      exact (runFields_trace_mem b.fields [] none _ _ c iv hm).2
    | ok o =>
      refine ⟨rfl, fun iv hm => ?_⟩
      exact (runFields_trace_mem b.fields [] none _ _ c iv hm).2
  · rw [if_neg hrep]
    cases hres : (buildMany b.repeatCount 0 b.fields
        ⟨some (options.deepCopy.getD b.deepCopyEnabled),
         some (options.skipValidation.getD b.defaultSkipValidation)⟩
        (options.deepCopy.getD b.deepCopyEnabled) c).result with
    | error e =>
      refine ⟨rfl, fun iv hm => ?_⟩
      obtain ⟨j, _, _, _, hop⟩ := buildMany_trace_mem b.repeatCount 0 b.fields _ _ c iv hm
      exact hop
    | ok os =>
      refine ⟨rfl, fun iv hm => ?_⟩
      obtain ⟨j, _, _, _, hop⟩ := buildMany_trace_mem b.repeatCount 0 b.fields _ _ c iv hm
      exact hop

/-- C10 witness: a concrete build with one factory field — the returned
options bag holds the resolved values and every traced invocation received
it. -/
theorem C10_build_mutates_options_witness :
    (((MockBuilder.create ⟨none, none⟩).addField "x"
        (.factory (fun _ _ opts s => .ok (.prim (.bool (opts.deepCopy.getD false)), s)))).build
        ⟨none, some false⟩ 7).optionsAfter =
      ⟨some true, some false⟩ ∧
    ∀ iv ∈ (((MockBuilder.create ⟨none, none⟩).addField "x"
        (.factory (fun _ _ opts s => .ok (.prim (.bool (opts.deepCopy.getD false)), s)))).build
        ⟨none, some false⟩ 7).trace,
      iv.options = (((MockBuilder.create ⟨none, none⟩).addField "x"
        (.factory (fun _ _ opts s => .ok (.prim (.bool (opts.deepCopy.getD false)), s)))).build
        ⟨none, some false⟩ 7).optionsAfter :=
  C10_build_mutates_options _ ⟨none, some false⟩ 7

/-- C2: with `repeatCount = 1` a successful `build()` returns one single
object (not a one-element sequence) produced by a pass whose generator
invocations all received `index = undefined`; with any other repeat count
`n` it returns an ordered sequence of exactly `n` objects, the passes
running with indices `0 … n-1`; `repeatCount = 0` always yields the empty
sequence. -/
theorem C2_repeat_semantics (b : MockBuilder) (options : BuildOptions) (c : Nat) :
    (b.repeatCount = 1 →
      ∀ r, (b.build options c).result = .ok r →
        (∃ o, r = .single o) ∧ ∀ iv ∈ (b.build options c).trace, iv.index = none) ∧
    (b.repeatCount ≠ 1 →
      ∀ r, (b.build options c).result = .ok r →
        ∃ os, r = .many os ∧ os.length = b.repeatCount ∧
          ∀ iv ∈ (b.build options c).trace,
            ∃ j, iv.index = some j ∧ j < b.repeatCount) ∧
    (b.repeatCount = 0 → (b.build options c).result = .ok (.many [])) := by
  rw [build_eq]
  dsimp only
  refine ⟨?_, ?_, ?_⟩
  · intro hrep r
    rw [if_pos hrep]
    cases hres : (createOne b.fields none
        ⟨some (options.deepCopy.getD b.deepCopyEnabled),
         some (options.skipValidation.getD b.defaultSkipValidation)⟩
        (options.deepCopy.getD b.deepCopyEnabled) c).result with
    | error e => intro h; cases h
    | ok o =>
      intro h
      cases h
      refine ⟨⟨o, rfl⟩, fun iv hm => ?_⟩
      exact (runFields_trace_mem b.fields [] none _ _ c iv hm).1
  · intro hrep r
    rw [if_neg hrep]
    cases hres : (buildMany b.repeatCount 0 b.fields
        ⟨some (options.deepCopy.getD b.deepCopyEnabled),
         some (options.skipValidation.getD b.defaultSkipValidation)⟩
        (options.deepCopy.getD b.deepCopyEnabled) c).result with
    | error e => intro h; cases h
    | ok os =>
      intro h
      cases h
      refine ⟨os, rfl, buildMany_ok_length _ _ _ _ _ _ _ hres, fun iv hm => ?_⟩
      obtain ⟨j, hj1, _, hj3, _⟩ := buildMany_trace_mem b.repeatCount 0 b.fields _ _ c iv hm
      exact ⟨j, hj1, by omega⟩
  · intro hrep
    rw [if_neg (by omega : ¬b.repeatCount = 1)]
    rw [hrep]
    rfl

/-- C2 witness: a builder with one constant field — `repeat 3` yields a
sequence of three objects built with indices below 3, and the same builder
with `repeat 1` yields a single object whose pass saw no index. -/
theorem C2_repeat_semantics_witness :
    ((((MockBuilder.create ⟨none, none⟩).addField "x"
        (.value (.prim (.num 1)))).setRepeat 3).repeatCount ≠ 1 ∧
      ∃ os,
        BuildResult.many [[("x", JsValue.prim (.num 1))], [("x", JsValue.prim (.num 1))],
          [("x", JsValue.prim (.num 1))]] = BuildResult.many os ∧ os.length = 3 ∧
        ∀ iv ∈ ((((MockBuilder.create ⟨none, none⟩).addField "x"
            (.value (.prim (.num 1)))).setRepeat 3).build ⟨none, none⟩ 0).trace,
          ∃ j, iv.index = some j ∧ j < 3) ∧
    ((∃ o, BuildResult.single [("x", JsValue.prim (.num 1))] = BuildResult.single o) ∧
      ∀ iv ∈ (((MockBuilder.create ⟨none, none⟩).addField "x"
          (.value (.prim (.num 1)))).build ⟨none, none⟩ 0).trace, iv.index = none) := by
  refine ⟨⟨by decide, ?_⟩, ?_⟩
  · exact (C2_repeat_semantics (((MockBuilder.create ⟨none, none⟩).addField "x"
        (.value (.prim (.num 1)))).setRepeat 3) ⟨none, none⟩ 0).2.1 (by decide) _ rfl
  · exact (C2_repeat_semantics ((MockBuilder.create ⟨none, none⟩).addField "x"
        (.value (.prim (.num 1)))) ⟨none, none⟩ 0).1 rfl _ rfl

/-- C7: when `build()` completes with a generator exception, the error text
is exactly what the failing generator raised (not caught, wrapped or
modified), the failing invocation is the last one performed (every earlier
invocation succeeded — the build aborted immediately), and no result —
neither a partial object nor a partial array — is returned. -/
theorem C7_generator_exception_propagates (b : MockBuilder) (options : BuildOptions)
    (c : Nat) (e : String)
    (h : (b.build options c).result = .error (.generatorErr e)) :
    (∀ r, (b.build options c).result ≠ .ok r) ∧
    ∃ pre iv, (b.build options c).trace = pre ++ [iv] ∧ iv.run = .error e ∧
      ∀ x ∈ pre, ∃ y, x.run = .ok y := by
  refine ⟨fun r hr => ?_, ?_⟩
  · rw [h] at hr
    cases hr
  rw [build_eq] at h ⊢
  dsimp only at h ⊢
  by_cases hrep : b.repeatCount = 1
  · rw [if_pos hrep] at h ⊢
    cases hres : (createOne b.fields none
        ⟨some (options.deepCopy.getD b.deepCopyEnabled),
         some (options.skipValidation.getD b.defaultSkipValidation)⟩
        (options.deepCopy.getD b.deepCopyEnabled) c).result with
    | error e0 =>
      rw [hres] at h
      dsimp only at h ⊢
      simp only [Except.error.injEq, BuildErr.generatorErr.injEq] at h
      subst h
      exact runFields_err_split b.fields [] none _ _ c e0 hres
    | ok o =>
      rw [hres] at h
      dsimp only at h
      cases h
  · rw [if_neg hrep] at h ⊢
    cases hres : (buildMany b.repeatCount 0 b.fields
        ⟨some (options.deepCopy.getD b.deepCopyEnabled),
         some (options.skipValidation.getD b.defaultSkipValidation)⟩
        (options.deepCopy.getD b.deepCopyEnabled) c).result with
    | error e0 =>
      rw [hres] at h
      dsimp only at h ⊢
      simp only [Except.error.injEq, BuildErr.generatorErr.injEq] at h
      subst h
      exact buildMany_err_split b.repeatCount 0 b.fields _ _ c e0 hres
    | ok os =>
      rw [hres] at h
      dsimp only at h
      cases h

/-- C7 witness: a builder whose second field's factory throws `boom` — the
build fails with exactly that message, the failing invocation is last in
the trace, and the first field's invocation succeeded. -/
theorem C7_generator_exception_propagates_witness :
    ((((MockBuilder.create ⟨none, none⟩).addField "x"
        (.value (.prim (.num 1)))).addField "y"
        (.factory (fun _ _ _ _ => .error "boom"))).build ⟨none, none⟩ 0).result =
      .error (.generatorErr "boom") ∧
    (∀ r, ((((MockBuilder.create ⟨none, none⟩).addField "x"
        (.value (.prim (.num 1)))).addField "y"
        (.factory (fun _ _ _ _ => .error "boom"))).build ⟨none, none⟩ 0).result ≠ .ok r) ∧
    ∃ pre iv, ((((MockBuilder.create ⟨none, none⟩).addField "x"
        (.value (.prim (.num 1)))).addField "y"
        (.factory (fun _ _ _ _ => .error "boom"))).build ⟨none, none⟩ 0).trace =
        pre ++ [iv] ∧ iv.run = .error "boom" ∧ ∀ x ∈ pre, ∃ y, x.run = .ok y := by
  have h : ((((MockBuilder.create ⟨none, none⟩).addField "x"
      (.value (.prim (.num 1)))).addField "y"
      (.factory (fun _ _ _ _ => .error "boom"))).build ⟨none, none⟩ 0).result =
      .error (.generatorErr "boom") := rfl
  have main := C7_generator_exception_propagates _ ⟨none, none⟩ 0 "boom" h
  exact ⟨h, main.1, main.2⟩

/-- C1: `addField` always appends — an entry with an already-present name
never removes or replaces the earlier entry; during a successful pass every
registry entry's generator is invoked, in registry order (the trace lists
exactly the field names in order and every traced invocation ran to
completion), and the built object's value under each name is the last value
assigned for that name — i.e. the (possibly deep-cloned) value produced by
the later entry, position-wise. -/
theorem C1_duplicate_fields :
    (∀ (b : MockBuilder) (name : String) (val : ValueOrFactory),
      ∃ fd, fd.name = name ∧ (b.addField name val).fields = b.fields ++ [fd]) ∧
    (∀ (fields : List FieldDef) (o : JsObject) (index : Option Nat)
        (options : BuildOptions) (dc : Bool) (c : Nat) (res : JsObject),
      (runFields fields o index options dc c).result = .ok res →
        (runFields fields o index options dc c).trace.map Invocation.name =
          fields.map FieldDef.name ∧
        (runFields fields o index options dc c).assigns.map Assign.name =
          fields.map FieldDef.name ∧
        (∀ iv ∈ (runFields fields o index options dc c).trace, ∃ y, iv.run = .ok y) ∧
        (∀ (key : String) (v : JsValue),
          lastAssigned (runFields fields o index options dc c).assigns key = some v →
          getKey res key = some v) ∧
        (∀ (k : Nat) (iv : Invocation) (a : Assign),
          (runFields fields o index options dc c).trace.get? k = some iv →
          (runFields fields o index options dc c).assigns.get? k = some a →
          (∃ s2, iv.run = .ok (a.raw, s2)) ∧
          (dc = false → a.val = a.raw) ∧
          (dc = true → ∃ c2, a.val = (deepClone a.raw c2).1))) := by
  constructor
  · intro b name val
    cases val with
    | value v => exact ⟨⟨name, constGen v, 0⟩, rfl, rfl⟩
    | factory f => exact ⟨⟨name, fun obj index options s => f obj index options s, 0⟩, rfl, rfl⟩
  · intro fields o index options dc c res h
    have spec := runFields_ok_spec fields o index options dc c res h
    refine ⟨spec.2.2.2.1, spec.2.2.2.2, runFields_ok_run fields o index options dc c res h,
      ?_, ?_⟩
    · intro key v hlast
      rw [spec.2.2.1]
      exact getKey_applyAssigns_some _ o key v hlast
    · intro k iv a ht ha
      have at_k := runFields_ok_at fields o index options dc c res h k iv a ht ha
      exact ⟨at_k.2.2.2.2.1, at_k.2.2.2.2.2.1, at_k.2.2.2.2.2.2⟩

/-- C1 witness: `field("id", 1)` then `field("id", 2)` — the registry keeps
both entries, a build invokes both generators in order, and the built value
under `id` is the later entry's `2`. -/
theorem C1_duplicate_fields_witness :
    (∃ fd, fd.name = "id" ∧
      (((MockBuilder.create ⟨none, none⟩).addField "id"
        (.value (.prim (.num 1)))).addField "id" (.value (.prim (.num 2)))).fields =
      ((MockBuilder.create ⟨none, none⟩).addField "id" (.value (.prim (.num 1)))).fields
        ++ [fd]) ∧
    (runFields (((MockBuilder.create ⟨none, none⟩).addField "id"
        (.value (.prim (.num 1)))).addField "id" (.value (.prim (.num 2)))).fields
        [] none ⟨some true, some true⟩ true 0).result =
      .ok [("id", JsValue.prim (.num 2))] ∧
    (runFields (((MockBuilder.create ⟨none, none⟩).addField "id"
        (.value (.prim (.num 1)))).addField "id" (.value (.prim (.num 2)))).fields
        [] none ⟨some true, some true⟩ true 0).trace.map Invocation.name = ["id", "id"] ∧
    lastAssigned (runFields (((MockBuilder.create ⟨none, none⟩).addField "id"
        (.value (.prim (.num 1)))).addField "id" (.value (.prim (.num 2)))).fields
        [] none ⟨some true, some true⟩ true 0).assigns "id" = some (JsValue.prim (.num 2)) ∧
    getKey [("id", JsValue.prim (.num 2))] "id" = some (JsValue.prim (.num 2)) := by
  have h : (runFields (((MockBuilder.create ⟨none, none⟩).addField "id"
      (.value (.prim (.num 1)))).addField "id" (.value (.prim (.num 2)))).fields
      [] none ⟨some true, some true⟩ true 0).result =
      .ok [("id", JsValue.prim (.num 2))] := rfl
  have main := C1_duplicate_fields.2 _ [] none ⟨some true, some true⟩ true 0 _ h
  exact ⟨C1_duplicate_fields.1 _ "id" (.value (.prim (.num 2))), h, main.1, rfl,
    main.2.2.2.1 "id" (JsValue.prim (.num 2)) rfl⟩

/-- C6: during one `createOne` pass the fields are resolved in registry
order, and each generator receives `(resultSoFar, index, resolvedOptions)`,
where `resultSoFar` is exactly the object obtained by replaying the earlier
assignments of the same pass (deep-copy transformation included, since the
replayed assignments carry post-clone values); hence a generator reading an
earlier sibling's key observes precisely the value that was assigned into
the result. -/
theorem C6_partial_result_visibility (fields : List FieldDef) (index : Option Nat)
    (options : BuildOptions) (dc : Bool) (c : Nat) (res : JsObject)
    (h : (createOne fields index options dc c).result = .ok res) :
    (createOne fields index options dc c).trace.map Invocation.name =
      fields.map FieldDef.name ∧
    (∀ (k : Nat) (iv : Invocation),
      (createOne fields index options dc c).trace.get? k = some iv →
      iv.index = index ∧ iv.options = options ∧
      iv.obj = applyAssigns [] ((createOne fields index options dc c).assigns.take k)) ∧
    (∀ (k : Nat) (iv : Invocation) (key : String) (v : JsValue),
      (createOne fields index options dc c).trace.get? k = some iv →
      lastAssigned ((createOne fields index options dc c).assigns.take k) key = some v →
      getKey iv.obj key = some v) := by
  have spec := runFields_ok_spec fields [] index options dc c res h
  have hobj : ∀ (k : Nat) (iv : Invocation),
      (createOne fields index options dc c).trace.get? k = some iv →
      iv.index = index ∧ iv.options = options ∧
      iv.obj = applyAssigns [] ((createOne fields index options dc c).assigns.take k) := by
    intro k iv ht
    simp only [createOne] at ht ⊢
    obtain ⟨hk, _⟩ := List.get?_eq_some.mp ht
    have hk2 : k < (runFields fields [] index options dc c).assigns.length := by
      rw [spec.2.1]
      rw [spec.1] at hk
      exact hk
    have ha := List.get?_eq_get hk2
    have at_k := runFields_ok_at fields [] index options dc c res h k iv _ ht ha
    exact ⟨at_k.2.1, at_k.2.2.1, at_k.1⟩
  refine ⟨spec.2.2.2.1, hobj, ?_⟩
  intro k iv key v ht hlast
  rw [(hobj k iv ht).2.2]
  exact getKey_applyAssigns_some _ [] key v hlast

/-- C6 witness: a `fullName` factory reading the earlier `firstName` field —
the second invocation's `resultSoFar` is the one-assignment replay and the
sibling lookup observes the assigned value `Ada`. -/
theorem C6_partial_result_visibility_witness :
    (createOne (((MockBuilder.create ⟨none, none⟩).addField "firstName"
        (.value (.prim (.str "Ada")))).addField "fullName"
        (.factory (fun obj _ _ s => .ok ((getKey obj "firstName").getD (.prim .undef), s)))).fields
        none ⟨some true, some true⟩ true 0).result =
      .ok [("firstName", JsValue.prim (.str "Ada")), ("fullName", JsValue.prim (.str "Ada"))] ∧
    (createOne (((MockBuilder.create ⟨none, none⟩).addField "firstName"
        (.value (.prim (.str "Ada")))).addField "fullName"
        (.factory (fun obj _ _ s => .ok ((getKey obj "firstName").getD (.prim .undef), s)))).fields
        none ⟨some true, some true⟩ true 0).trace.map Invocation.name =
      ["firstName", "fullName"] ∧
    (∀ (k : Nat) (iv : Invocation),
      (createOne (((MockBuilder.create ⟨none, none⟩).addField "firstName"
          (.value (.prim (.str "Ada")))).addField "fullName"
          (.factory (fun obj _ _ s => .ok ((getKey obj "firstName").getD (.prim .undef), s)))).fields
          none ⟨some true, some true⟩ true 0).trace.get? k = some iv →
        lastAssigned ((createOne (((MockBuilder.create ⟨none, none⟩).addField "firstName"
          (.value (.prim (.str "Ada")))).addField "fullName"
          (.factory (fun obj _ _ s => .ok ((getKey obj "firstName").getD (.prim .undef), s)))).fields
          none ⟨some true, some true⟩ true 0).assigns.take k) "firstName" =
          some (JsValue.prim (.str "Ada")) →
        getKey iv.obj "firstName" = some (JsValue.prim (.str "Ada"))) := by
  have h : (createOne (((MockBuilder.create ⟨none, none⟩).addField "firstName"
      (.value (.prim (.str "Ada")))).addField "fullName"
      (.factory (fun obj _ _ s => .ok ((getKey obj "firstName").getD (.prim .undef), s)))).fields
      none ⟨some true, some true⟩ true 0).result =
      .ok [("firstName", JsValue.prim (.str "Ada")), ("fullName", JsValue.prim (.str "Ada"))] :=
    rfl
  have main := C6_partial_result_visibility _ none ⟨some true, some true⟩ true 0 _ h
  exact ⟨h, main.1, fun k iv ht hl => main.2.2 k iv "firstName" (JsValue.prim (.str "Ada")) ht hl⟩

theorem dcApply_prim (dc : Bool) (p : Prim) (c : Nat) : dcApply dc (.prim p) c = (.prim p, c) := by
  cases dc <;> simp [dcApply, deepClone]

theorem inc_pass (name : String) (step c0 : Int) (idx : Option Nat) (options : BuildOptions)
    (dc : Bool) (c : Nat) :
    createOne [⟨name, incrementGen step, c0⟩] idx options dc c =
      ⟨.ok [(name, .prim (.num c0))], [⟨name, incrementGen step, c0 + step⟩], c,
       [⟨name, incrementGen step, [], idx, options, c0⟩],
       [⟨name, .prim (.num c0), .prim (.num c0)⟩]⟩ := by
  simp [createOne, runFields, incrementGen, dcApply_prim, setKey]

theorem inc_batch (name : String) (step : Int) (options : BuildOptions) (dc : Bool) :
    ∀ (n i : Nat) (c0 : Int) (c : Nat),
      (buildMany n i [⟨name, incrementGen step, c0⟩] options dc c).result =
        .ok ((List.range n).map fun j : Nat =>
          [(name, JsValue.prim (.num (c0 + (j : Int) * step)))]) ∧
      (buildMany n i [⟨name, incrementGen step, c0⟩] options dc c).fields =
        [⟨name, incrementGen step, c0 + (n : Int) * step⟩] := by
  intro n
  induction n with
  | zero =>
    intro i c0 c
    refine ⟨by simp, by simp⟩
  | succ n ih =>
    intro i c0 c
    have hp : (createOne [⟨name, incrementGen step, c0⟩] (some i) options dc c).result =
        .ok [(name, JsValue.prim (.num c0))] := by
      rw [inc_pass]
    rw [buildMany_succ_ok n i _ options dc c _ hp, inc_pass]
    dsimp only
    have ihr := ih (i + 1) (c0 + step) c
    rw [ihr.1]
    dsimp only
    constructor
    · congr 1
      rw [List.range_succ_eq_map, List.map_cons, List.map_map]
      congr 1
      · norm_num
      · apply List.map_congr_left
        intro j _
        simp only [Function.comp]
        congr 2
        push_cast
        ring_nf
    · rw [ihr.2]
      congr 2
      push_cast
      ring_nf

theorem inc_build (name : String) (step c0 : Int) (n : Nat) (dcE sv : Bool)
    (options : BuildOptions) (c : Nat) :
    ((⟨[⟨name, incrementGen step, c0⟩], n, dcE, sv⟩ : MockBuilder).build options c).builder =
      ⟨[⟨name, incrementGen step, c0 + (n : Int) * step⟩], n, dcE, sv⟩ ∧
    (n ≠ 1 →
      ((⟨[⟨name, incrementGen step, c0⟩], n, dcE, sv⟩ : MockBuilder).build options c).result =
        .ok (.many ((List.range n).map fun j : Nat =>
          [(name, JsValue.prim (.num (c0 + (j : Int) * step)))]))) ∧
    (n = 1 →
      ((⟨[⟨name, incrementGen step, c0⟩], n, dcE, sv⟩ : MockBuilder).build options c).result =
        .ok (.single [(name, .prim (.num c0))])) := by
  rw [build_eq]
  dsimp only
  by_cases h1 : n = 1
  · subst h1
    rw [if_pos rfl, inc_pass]
    dsimp only
    refine ⟨?_, fun hne => absurd rfl hne, fun _ => rfl⟩
    simp only [MockBuilder.mk.injEq, List.cons.injEq, FieldDef.mk.injEq]
    norm_num
  · rw [if_neg h1]
    have hb := inc_batch name step
      ⟨some (options.deepCopy.getD dcE), some (options.skipValidation.getD sv)⟩
      (options.deepCopy.getD dcE) n 0 c0 c
    rw [hb.1]
    dsimp only
    refine ⟨?_, fun _ => rfl, fun he => absurd he h1⟩
    rw [hb.2]

/-- C4: the `increment(start, step)` generator returns the counter's current
value and then advances it by `step` (which may be zero or negative); the
counter is captured at chain time initialized to `start`, lives in the field
definition (not the build call), and is never reset: a single-field increment
builder with `repeat n` yields `start, start+step, …, start+(n-1)*step`
across the batch, leaves the counter at `start + n*step`, and a subsequent
build continues from there. -/
theorem C4_increment_semantics :
    (∀ (step : Int) (o : JsObject) (index : Option Nat) (options : BuildOptions)
        (counter : Int),
      incrementGen step o index options counter = .ok (.prim (.num counter), counter + step)) ∧
    (∀ (b : MockBuilder) (name : String) (start step : Int),
      (b.fieldIncrement name start step).fields =
        b.fields ++ [⟨name, incrementGen step, start⟩]) ∧
    (∀ (name : String) (step c0 : Int) (n : Nat) (dcE sv : Bool)
        (options : BuildOptions) (c : Nat),
      ((⟨[⟨name, incrementGen step, c0⟩], n, dcE, sv⟩ : MockBuilder).build options c).builder =
        ⟨[⟨name, incrementGen step, c0 + (n : Int) * step⟩], n, dcE, sv⟩ ∧
      (n ≠ 1 →
        ((⟨[⟨name, incrementGen step, c0⟩], n, dcE, sv⟩ : MockBuilder).build options c).result =
          .ok (.many ((List.range n).map fun j : Nat =>
            [(name, JsValue.prim (.num (c0 + (j : Int) * step)))]))) ∧
      (n = 1 →
        ((⟨[⟨name, incrementGen step, c0⟩], n, dcE, sv⟩ : MockBuilder).build options c).result =
          .ok (.single [(name, .prim (.num c0))]))) ∧
    (∀ (name : String) (step c0 : Int) (n : Nat) (dcE sv : Bool)
        (options : BuildOptions) (c c2 : Nat), n ≠ 1 →
      (((⟨[⟨name, incrementGen step, c0⟩], n, dcE, sv⟩ : MockBuilder).build
            options c).builder.build options c2).result =
        .ok (.many ((List.range n).map fun j : Nat =>
          [(name, JsValue.prim (.num (c0 + (n : Int) * step + (j : Int) * step)))]))) := by
  refine ⟨fun step o index options counter => rfl, fun b name start step => rfl,
    fun name step c0 n dcE sv options c => inc_build name step c0 n dcE sv options c, ?_⟩
  intro name step c0 n dcE sv options c c2 hne
  rw [(inc_build name step c0 n dcE sv options c).1]
  exact (inc_build name step (c0 + (n : Int) * step) n dcE sv options c2).2.1 hne

/-- C4 witness: `increment(5, 2)` with `repeat 3` yields `5, 7, 9`, leaves
the counter at `11`, and the next build of the same builder yields
`11, 13, 15`. -/
theorem C4_increment_semantics_witness :
    (3 : Nat) ≠ 1 ∧
    incrementGen 2 [] none ⟨none, none⟩ 5 = .ok (.prim (.num 5), 7) ∧
    ((⟨[⟨"n", incrementGen 2, 5⟩], 3, true, true⟩ : MockBuilder).build ⟨none, none⟩ 0).result =
      .ok (.many [[("n", JsValue.prim (.num 5))], [("n", JsValue.prim (.num 7))],
        [("n", JsValue.prim (.num 9))]]) ∧
    ((⟨[⟨"n", incrementGen 2, 5⟩], 3, true, true⟩ : MockBuilder).build ⟨none, none⟩ 0).builder =
      ⟨[⟨"n", incrementGen 2, 11⟩], 3, true, true⟩ ∧
    ((((⟨[⟨"n", incrementGen 2, 5⟩], 3, true, true⟩ : MockBuilder).build ⟨none, none⟩
        0).builder).build ⟨none, none⟩ 0).result =
      .ok (.many [[("n", JsValue.prim (.num 11))], [("n", JsValue.prim (.num 13))],
        [("n", JsValue.prim (.num 15))]]) := by
  refine ⟨by decide, C4_increment_semantics.1 2 [] none ⟨none, none⟩ 5, ?_, ?_, ?_⟩
  · have h := (C4_increment_semantics.2.2.1 "n" 2 5 3 true true ⟨none, none⟩ 0).2.1
      (by decide)
    rw [h]
    rfl
  · have h := (C4_increment_semantics.2.2.1 "n" 2 5 3 true true ⟨none, none⟩ 0).1
    rw [h]
    rfl
  · have h := C4_increment_semantics.2.2.2 "n" 2 5 3 true true ⟨none, none⟩ 0 0 (by decide)
    rw [h]
    rfl

/-- C3: with the resolved `skipValidation` false, every field whose
registered rule fails on the field's computed value contributes its
`errorMsg` to the collected failure list (fields in declaration order,
objects in repetition order), and a non-empty collection makes the whole
build fail with the newline-joined aggregate message — each collected
message occurs in the aggregate — producing no result (no partial array in
the batch case); with the resolved `skipValidation` true (the default) the
validators are not invoked at all (empty validator trace) and the build
succeeds or fails exactly as the unvalidated embedded `build()` does. -/
theorem C3_validation_rules (b : MockBuilder) (rules : Validators) (options : BuildOptions)
    (c : Nat) :
    (options.skipValidation.getD b.defaultSkipValidation = true →
      (buildWithValidators b rules options c).vtrace = [] ∧
      ∀ r, (buildWithValidators b rules options c).result = .ok r ↔
        (b.build options c).result = .ok r) ∧
    (options.skipValidation.getD b.defaultSkipValidation = false → b.repeatCount = 1 →
      ∀ o, (createOne b.fields none
          ⟨some (options.deepCopy.getD b.deepCopyEnabled),
           some (options.skipValidation.getD b.defaultSkipValidation)⟩
          (options.deepCopy.getD b.deepCopyEnabled) c).result = .ok o →
        (buildWithValidators b rules options c).vtrace =
          (collectFailures rules (b.fields.map FieldDef.name) o).2 ∧
        ((collectFailures rules (b.fields.map FieldDef.name) o).1 = [] →
          (buildWithValidators b rules options c).result = .ok (.single o)) ∧
        ((collectFailures rules (b.fields.map FieldDef.name) o).1 ≠ [] →
          (buildWithValidators b rules options c).result =
            .error (joinMsgs (collectFailures rules (b.fields.map FieldDef.name) o).1) ∧
          ∀ r, (buildWithValidators b rules options c).result ≠ .ok r) ∧
        (∀ (name : String) (rule : ValidationRule), name ∈ b.fields.map FieldDef.name →
          lookupRule rules name = some rule →
          (rule ((getKey o name).getD (.prim .undef))).success = false →
          (rule ((getKey o name).getD (.prim .undef))).errorMsg ∈
            (collectFailures rules (b.fields.map FieldDef.name) o).1) ∧
        (∀ m ∈ (collectFailures rules (b.fields.map FieldDef.name) o).1,
          m.data <:+: (joinMsgs (collectFailures rules (b.fields.map FieldDef.name) o).1).data)) ∧
    (options.skipValidation.getD b.defaultSkipValidation = false → b.repeatCount ≠ 1 →
      ∀ os, (buildMany b.repeatCount 0 b.fields
          ⟨some (options.deepCopy.getD b.deepCopyEnabled),
           some (options.skipValidation.getD b.defaultSkipValidation)⟩
          (options.deepCopy.getD b.deepCopyEnabled) c).result = .ok os →
        (buildWithValidators b rules options c).vtrace =
          (collectBatch rules (b.fields.map FieldDef.name) os).2 ∧
        ((collectBatch rules (b.fields.map FieldDef.name) os).1 = [] →
          (buildWithValidators b rules options c).result = .ok (.many os)) ∧
        ((collectBatch rules (b.fields.map FieldDef.name) os).1 ≠ [] →
          (buildWithValidators b rules options c).result =
            .error (joinMsgs (collectBatch rules (b.fields.map FieldDef.name) os).1) ∧
          ∀ r, (buildWithValidators b rules options c).result ≠ .ok r) ∧
        (∀ o ∈ os, ∀ (name : String) (rule : ValidationRule),
          name ∈ b.fields.map FieldDef.name →
          lookupRule rules name = some rule →
          (rule ((getKey o name).getD (.prim .undef))).success = false →
          (rule ((getKey o name).getD (.prim .undef))).errorMsg ∈
            (collectBatch rules (b.fields.map FieldDef.name) os).1) ∧
        (∀ m ∈ (collectBatch rules (b.fields.map FieldDef.name) os).1,
          m.data <:+: (joinMsgs (collectBatch rules (b.fields.map FieldDef.name) os).1).data)) := by
  refine ⟨?_, ?_, ?_⟩
  · intro hsk
    rw [build_eq]
    simp only [buildWithValidators, hsk, eq_self_iff_true, if_true]
    by_cases hrep : b.repeatCount = 1
    · simp only [hrep, eq_self_iff_true, if_true]
      cases hres : (createOne b.fields none
          ⟨some (options.deepCopy.getD b.deepCopyEnabled), some true⟩
          (options.deepCopy.getD b.deepCopyEnabled) c).result with
      | error e =>
        exact ⟨rfl, fun r => ⟨fun hx => (by cases hx), fun hx => (by cases hx)⟩⟩
      | ok o =>
        refine ⟨rfl, fun r => ⟨fun hx => ?_, fun hx => ?_⟩⟩
        · cases hx
          rfl
        · cases hx
          rfl
    · rw [if_neg hrep, if_neg hrep]
      cases hres : (buildMany b.repeatCount 0 b.fields
          ⟨some (options.deepCopy.getD b.deepCopyEnabled), some true⟩
          (options.deepCopy.getD b.deepCopyEnabled) c).result with
      | error e =>
        exact ⟨rfl, fun r => ⟨fun hx => (by cases hx), fun hx => (by cases hx)⟩⟩
      | ok os =>
        refine ⟨rfl, fun r => ⟨fun hx => ?_, fun hx => ?_⟩⟩
        · cases hx
          rfl
        · cases hx
          rfl
  · intro hsk hrep o hres
    simp only [buildWithValidators, hsk, hrep, eq_self_iff_true, if_true] at hres ⊢
    rw [hres]
    dsimp only
    rw [if_neg Bool.false_ne_true]
    refine ⟨?_, ?_, ?_, ?_, ?_⟩
    · by_cases hemp : (collectFailures rules (List.map FieldDef.name b.fields) o).1.isEmpty
      · rw [if_pos hemp]
      · rw [if_neg hemp]
    · intro hnil
      rw [if_pos (show (collectFailures rules (List.map FieldDef.name b.fields) o).1.isEmpty
        = true by rw [hnil]; rfl)]
    · intro hne
      rw [if_neg (fun hh => hne (List.isEmpty_iff.mp hh))]
      exact ⟨rfl, fun r hr => by cases hr⟩
    · intro name rule hmem hrule hfail
      exact collectFailures_mem rules _ o name rule hmem hrule hfail
    · exact joinMsgs_mem_infix _
  · intro hsk hrep os hres
    simp only [buildWithValidators, hsk, eq_self_iff_true, if_true] at hres ⊢
    rw [if_neg hrep, hres]
    dsimp only
    rw [if_neg Bool.false_ne_true]
    refine ⟨?_, ?_, ?_, ?_, ?_⟩
    · by_cases hemp : (collectBatch rules (List.map FieldDef.name b.fields) os).1.isEmpty
      · rw [if_pos hemp]
      · rw [if_neg hemp]
    · intro hnil
      rw [if_pos (show (collectBatch rules (List.map FieldDef.name b.fields) os).1.isEmpty
        = true by rw [hnil]; rfl)]
    · intro hne
      rw [if_neg (fun hh => hne (List.isEmpty_iff.mp hh))]
      exact ⟨rfl, fun r hr => by cases hr⟩
    · intro o hmo name rule hmem hrule hfail
      exact collectBatch_mem rules _ os o hmo _
        (collectFailures_mem rules _ o name rule hmem hrule hfail)
    · exact joinMsgs_mem_infix _

/-- C3 witness: `age = 15` failing an `age >= 18` rule and `email` failing a
format rule — with `skipValidation: false` the build fails with the two
messages joined by newline, and the first rule's message occurs inside the
aggregate; mirrors the repository's `validate multiple fields and collect
all errors` test. -/
theorem C3_validation_rules_witness :
    ((⟨none, some false⟩ : BuildOptions).skipValidation.getD true = false) ∧
    ((⟨[⟨"age", constGen (.prim (.num 15)), 0⟩,
        ⟨"email", constGen (.prim (.str "invalid")), 0⟩], 1, true, true⟩ :
      MockBuilder).repeatCount = 1) ∧
    (createOne [⟨"age", constGen (.prim (.num 15)), 0⟩,
        ⟨"email", constGen (.prim (.str "invalid")), 0⟩] none ⟨some true, some false⟩
        true 0).result =
      .ok [("age", JsValue.prim (.num 15)), ("email", JsValue.prim (.str "invalid"))] ∧
    (buildWithValidators
        (⟨[⟨"age", constGen (.prim (.num 15)), 0⟩,
           ⟨"email", constGen (.prim (.str "invalid")), 0⟩], 1, true, true⟩ : MockBuilder)
        [("age", fun v => ⟨(match v with
            | JsValue.prim (Prim.num n) => decide (18 ≤ n)
            | _ => false), "Age must be at least 18"⟩),
         ("email", fun _ => ⟨false, "Invalid email format"⟩)]
        ⟨none, some false⟩ 0).result =
      .error "Age must be at least 18\nInvalid email format" ∧
    ("Age must be at least 18").data <:+:
      ("Age must be at least 18\nInvalid email format").data := by
  have hres : (createOne [⟨"age", constGen (.prim (.num 15)), 0⟩,
      ⟨"email", constGen (.prim (.str "invalid")), 0⟩] none ⟨some true, some false⟩
      true 0).result =
      .ok [("age", JsValue.prim (.num 15)), ("email", JsValue.prim (.str "invalid"))] := rfl
  have main := (C3_validation_rules
      (⟨[⟨"age", constGen (.prim (.num 15)), 0⟩,
         ⟨"email", constGen (.prim (.str "invalid")), 0⟩], 1, true, true⟩ : MockBuilder)
      [("age", fun v => ⟨(match v with
          | JsValue.prim (Prim.num n) => decide (18 ≤ n)
          | _ => false), "Age must be at least 18"⟩),
       ("email", fun _ => ⟨false, "Invalid email format"⟩)]
      ⟨none, some false⟩ 0).2.1 rfl rfl
      [("age", JsValue.prim (.num 15)), ("email", JsValue.prim (.str "invalid"))] hres
  have hne := main.2.2.1 (fun hh => List.noConfusion hh)
  refine ⟨rfl, rfl, hres, ?_, ?_⟩
  · rw [hne.1]
    rfl
  · exact main.2.2.2.2 "Age must be at least 18"
      (show "Age must be at least 18" ∈
        (["Age must be at least 18", "Invalid email format"] : List String) by simp)

end DataMockBuilder
